import Mathlib

/-!
# Verification of the Parakeet TDT speech-to-text engine (`stt.rs`)

A shallow embedding of `src/packages/desktop/src-tauri/src/stt.rs`:
the vocabulary loader, the recording state machine, the model-lifecycle
operations and the greedy token-and-duration transducer (TDT) decode loop
of `SttState::transcribe`, together with theorems settling the frozen
claims about this code.

Modelling conventions:
* `f32` logit values are modelled by `FVal`: either a rational number
  (finite floats embed into `ℚ`; no arithmetic is performed on logits,
  only `partial_cmp`) or `nan`, whose comparison with anything is `none`,
  exactly like `f32::partial_cmp` on a NaN operand.
* The three ONNX sessions are opaque: a type parameter `σ` for the session
  handles, and the decoder-joint network is an oracle function `dj` taking
  the current frame index `t` (the frame sliced from the fixed encoder
  output at index `t`), the `i32`-cast previous token and the two recurrent
  state tensors, returning the flat logit vector and the two new states.
  The preprocessor+encoder stages are one oracle returning the encoder
  metadata the loop reads (`encoded_len`, `num_frames`) or an error.
* Rust strings are their character sequences (`RStr := List Char`).
  Fallible Rust operations return the error through an `Option RStr` /
  `Except RStr` channel; an out-of-bounds slice (a Rust panic) is a
  separate `none` / `.panicked` outcome, distinct from `Err`.
* Machine integers (`i64`, `i32`, `usize`) are modelled as `Int`/`Nat`;
  the one cast the decode loop performs (`token as i32` for the previous
  token fed back to the network) is modelled by the wrap-around `toI32`.
-/

/-- Total comparison of two rationals, mirroring how `f32::partial_cmp`
orders two comparable (non-NaN) floats. -/
def qcmp (a b : ℚ) : Ordering :=
  if a < b then .lt else if b < a then .gt else .eq

/-- A logit value: a finite float (as a rational) or NaN. -/
inductive FVal
  | num (q : ℚ)
  | nan
deriving DecidableEq

/-- `f32::partial_cmp`: `none` when either operand is NaN. -/
def FVal.pcmp : FVal → FVal → Option Ordering
  | .num a, .num b => some (qcmp a b)
  | _, _ => none

/-- The comparator the decode loop passes to `max_by`:
`a.partial_cmp(b).unwrap_or(std::cmp::Ordering::Equal)` (stt.rs:366,379). -/
def fcmp (a b : FVal) : Ordering := (FVal.pcmp a b).getD .eq

/-- Rust's `Iterator::max_by`: a left fold that keeps the accumulator only
when it compares strictly greater than the next element (so the *last* of
several equally-maximum elements is returned); `none` on an empty
iterator. -/
def rustMaxBy {α : Type} (cmp : α → α → Ordering) : List α → Option α
  | [] => none
  | x :: xs => some (xs.foldl (fun a y => if cmp a y = .gt then a else y) x)

/-- stt.rs:362-369 - `token`: index of the `max_by` element of the
enumerated token logits, `unwrap_or(blank_idx)` on an empty vector. -/
def tokenOf (logits : List FVal) (blank : Int) : Int :=
  match rustMaxBy (fun a b : Nat × FVal => fcmp a.2 b.2) logits.enum with
  | some p => (p.1 : Int)
  | none => blank

/-- stt.rs:372-383 - `step`: `0` when there are no duration logits, else
the index of the `max_by` element of the enumerated duration logits
(the inner `unwrap_or(0)` of the source is kept although the vector is
non-empty in that branch). -/
def stepOf (durs : List FVal) : Nat :=
  if durs.isEmpty then 0
  else
    match rustMaxBy (fun a b : Nat × FVal => fcmp a.2 b.2) durs.enum with
    | some p => p.1
    | none => 0

/-- Modelled from the spec: `token` selection as the spec words it -
a left-to-right scan that keeps the *earliest* candidate on ties or when
the comparison is indeterminate, moving to a later candidate only when it
compares strictly greater. Stated only to be compared against the
source-derived `tokenOf`. -/
def specTokenFirstWins (logits : List FVal) (blank : Int) : Int :=
  match logits.enum with
  | [] => blank
  | x :: xs =>
      ((xs.foldl (fun a y =>
        match FVal.pcmp y.2 a.2 with
        | some .gt => y
        | _ => a) x).1 : Int)

/-- The `token as i32` cast (stt.rs:313,315): wrap an `i64` value into
the `i32` range. -/
def toI32 (x : Int) : Int := (x + 2 ^ 31) % 2 ^ 32 - 2 ^ 31

/-! ## Rust strings -/

/-- Rust strings and string slices, modelled as their character
sequences (Lean's own `String` functions are defined by well-founded
recursion, which blocks kernel evaluation; the character-list model is
fully executable). -/
abbrev RStr := List Char

/-- Shorthand: the character sequence of a literal. -/
def rs (s : String) : RStr := s.toList

/-- Rust `str::split` on a single-character pattern: the result always
has one more field than there are separators, so adjacent separators
produce empty fields. -/
def splitOnChar (c : Char) : List Char → List (List Char)
  | [] => [[]]
  | x :: xs =>
    if x = c then [] :: splitOnChar c xs
    else
      match splitOnChar c xs with
      | [] => [[x]]
      | w :: ws => (x :: w) :: ws

/-- Splitting on a character-class predicate (for `split_whitespace`). -/
def splitOnPred (p : Char → Bool) : List Char → List (List Char)
  | [] => [[]]
  | x :: xs =>
    if p x then [] :: splitOnPred p xs
    else
      match splitOnPred p xs with
      | [] => [[x]]
      | w :: ws => (x :: w) :: ws

/-- Rust `str::trim` (whitespace per `Char.isWhitespace`; the
vocabulary files at issue are ASCII, where this agrees with Rust's
Unicode `White_Space`). -/
def rustTrim (l : RStr) : RStr :=
  ((l.dropWhile Char.isWhitespace).reverse.dropWhile Char.isWhitespace).reverse

/-- Rust `str::lines`: split on `'\n'`, drop the optional final line
ending, strip a trailing `'\r'` from each line. -/
def rustLines (l : RStr) : List RStr :=
  let parts := splitOnChar '\n' l
  let parts := if parts.getLast? = some [] then parts.dropLast else parts
  parts.map fun ln => if ln.getLast? = some '\r' then ln.dropLast else ln

/-! ## Vocabulary loading (`SttState::load_vocab`, stt.rs:129-150) -/

/-- `parts[0].replace('\u{2581}', " ")` (stt.rs:138): the pattern and
the replacement are both one character long, so the replace is a
character map. -/
def replaceMarker (l : RStr) : RStr :=
  l.map fun c => if c = '▁' then ' ' else c

/-- All-ASCII-digit parse of a digit run; `none` when empty or any
non-digit appears. -/
def parseDigits (cs : List Char) : Option Nat :=
  match cs with
  | [] => none
  | _ =>
    if cs.all (·.isDigit) then
      some (cs.foldl (fun n c => n * 10 + (c.toNat - 48)) 0)
    else none

/-- Rust `str::parse::<i64>`: optional `+`/`-` sign, one or more ASCII
digits, value within the `i64` range. -/
def parseI64 (l : RStr) : Option Int :=
  let p : Int × List Char :=
    match l with
    | '+' :: r => (1, r)
    | '-' :: r => (-1, r)
    | r => (1, r)
  match parseDigits p.2 with
  | none => none
  | some n =>
    let v : Int := p.1 * n
    if -(2 ^ 63) ≤ v ∧ v < 2 ^ 63 then some v else none

/-- `HashMap::insert`: the vocabulary `HashMap<i64, String>` as an
association list deduplicated by key, so `List.length` is the map's
`len()` and `List.lookup` its `get`. -/
def hmInsert (m : List (Int × RStr)) (k : Int) (v : RStr) :
    List (Int × RStr) :=
  (k, v) :: m.filter fun p => p.1 ≠ k

/-- The `for line in content.lines()` body of `load_vocab`
(stt.rs:135-147): `line.trim().split(' ')`, the two-field guard, the
`i64` parse of the second field (aborting the loop with the
`Invalid vocab ID` error), the `<blk>` check against the *unreplaced*
first field, and the marker-replaced insert. Threads the map being
built and `blank_idx`; mutations made before a failing line persist,
exactly as through `&mut self` in the source. -/
def loadVocabLines :
    List RStr → List (Int × RStr) → Int →
    (List (Int × RStr) × Int) × Option RStr
  | [], vocab, blank => ((vocab, blank), none)
  | line :: rest, vocab, blank =>
    if 2 ≤ (splitOnChar ' ' (rustTrim line)).length then
      match parseI64 ((splitOnChar ' ' (rustTrim line)).getD 1 []) with
      | none =>
        ((vocab, blank),
          some (rs "Invalid vocab ID: " ++
            (splitOnChar ' ' (rustTrim line)).getD 1 []))
      | some id =>
        loadVocabLines rest
          (hmInsert vocab id
            (replaceMarker ((splitOnChar ' ' (rustTrim line)).getD 0 [])))
          (if (splitOnChar ' ' (rustTrim line)).getD 0 [] = rs "<blk>" then id
            else blank)
    else loadVocabLines rest vocab blank

/-! ## Engine state -/

/-- stt.rs:31-38. The `Downloading` progress (`f32`) is a rational. -/
inductive ModelStatus
  | NotDownloaded
  | Downloading (progress : ℚ)
  | Ready
  | Error (message : RStr)
deriving DecidableEq

/-- `SttState` (stt.rs:48-69); the three ONNX `Session`s are opaque
values of a parameter type `σ`, audio samples (`f32`) are rationals,
and the `model_dir` path is outside the model (file-system contents
reach the operations as explicit oracle arguments). -/
structure SttState (σ : Type) where
  audio_buffer : List ℚ
  is_recording : Bool
  preprocessor_session : Option σ
  encoder_session : Option σ
  decoder_session : Option σ
  vocab : List (Int × RStr)
  vocab_size : Nat
  blank_idx : Int
  model_status : ModelStatus

/-- `SttState::start_recording` (stt.rs:107-114). -/
def start_recording {σ : Type} (st : SttState σ) :
    Except RStr (SttState σ) :=
  if st.model_status = ModelStatus.Ready then
    .ok { st with audio_buffer := [], is_recording := true }
  else .error (rs "Model not ready. Please download the model first.")

/-- `SttState::push_audio` (stt.rs:116-122). -/
def push_audio {σ : Type} (st : SttState σ) (samples : List ℚ) :
    Except RStr (SttState σ) :=
  if st.is_recording then
    .ok { st with audio_buffer := st.audio_buffer ++ samples }
  else .error (rs "Not recording")

/-- `SttState::stop_recording` (stt.rs:124-127): `mem::take` of the
buffer. -/
def stop_recording {σ : Type} (st : SttState σ) : List ℚ × SttState σ :=
  (st.audio_buffer, { st with audio_buffer := [], is_recording := false })

/-- `SttState::load_vocab` (stt.rs:129-150). `content` is the result of
`fs::read_to_string(vocab.txt)`. The map is cleared *before* the parse
loop runs; `vocab_size` is updated only on success. Returns the state
after the call and the error, if any. -/
def load_vocab {σ : Type} (st : SttState σ)
    (content : Except RStr RStr) : SttState σ × Option RStr :=
  match content with
  | .error e => (st, some (rs "Failed to read vocab: " ++ e))
  | .ok c =>
    match loadVocabLines (rustLines c) [] st.blank_idx with
    | ((v, b), some e) =>
      ({ st with vocab := v, blank_idx := b }, some e)
    | ((v, b), none) =>
      ({ st with vocab := v, blank_idx := b, vocab_size := v.length }, none)

/-- `SttState::load_models` (stt.rs:152-206). The file-presence check,
the vocabulary file contents, the ONNX-runtime initialization and the
three session builds are oracle arguments (each `Except` carries the
already-formatted message of whichever builder stage failed). The three
sessions are assigned and the status set to `Ready` only after every
step succeeded; no failing path writes `model_status`. -/
def load_models {σ : Type} (st : SttState σ) (filesPresent : Bool)
    (vocabContent : Except RStr RStr) (ortInit : Except RStr Unit)
    (preSession encSession decSession : Except RStr σ) :
    SttState σ × Option RStr :=
  if ¬filesPresent then (st, some (rs "Models not downloaded"))
  else
    match load_vocab st vocabContent with
    | (st1, some e) => (st1, some e)
    | (st1, none) =>
      match ortInit with
      | .error e =>
        (st1, some (rs "Failed to initialize ONNX Runtime: " ++ e))
      | .ok _ =>
        match preSession with
        | .error e => (st1, some e)
        | .ok p =>
          match encSession with
          | .error e => (st1, some e)
          | .ok en =>
            match decSession with
            | .error e => (st1, some e)
            | .ok d =>
              ({ st1 with
                  preprocessor_session := some p
                  encoder_session := some en
                  decoder_session := some d
                  model_status := ModelStatus.Ready }, none)

/-! ## The greedy TDT decode loop (`SttState::transcribe`, stt.rs:289-415) -/

/-- `max_tokens_per_step` (stt.rs:301). -/
def maxTokensPerStep : Nat := 10

/-- One decoder-joint invocation's outputs: the flat `outputs` logit
vector and the two updated recurrent-state tensors (stt.rs:344-353). -/
structure DJOut (σ : Type) where
  outputs : List FVal
  state1 : σ
  state2 : σ

/-- The state the decode loop carries between iterations
(stt.rs:296-303): emitted tokens, frame index `t`, the per-frame emission
counter `emitted_tokens`, and the two recurrent-state tensors. -/
structure LoopState (σ : Type) where
  tokens : List Int
  t : Nat
  emitted : Nat
  s1 : σ
  s2 : σ
deriving DecidableEq

/-- stt.rs:312-316 - `prev_token`: the last emitted token, or `blank_idx`
when none has been emitted yet. -/
def prevTokenOf (blank : Int) (tokens : List Int) : Int :=
  tokens.getLast?.getD blank

/-- The decoder-joint invocation of one iteration (stt.rs:307-342): the
oracle `dj` receives the frame index `t` (standing for the single-frame
slice of the fixed encoder output at index `t`), the `i32`-cast previous
token and the two recurrent states. -/
def djAt {σ : Type} (blank : Int) (dj : Nat → Int → σ → σ → DJOut σ)
    (s : LoopState σ) : DJOut σ :=
  dj s.t (toI32 (prevTokenOf blank s.tokens)) s.s1 s.s2

/-- The token selected in one iteration (stt.rs:358,362-369), applied to
the first `vocab_size` entries of the logit vector. -/
def stepTokenOf {σ : Type} (blank : Int) (vocabSize : Nat)
    (dj : Nat → Int → σ → σ → DJOut σ) (s : LoopState σ) : Int :=
  tokenOf ((djAt blank dj s).outputs.take vocabSize) blank

/-- The duration step selected in one iteration (stt.rs:359,372-383),
applied to the remainder of the logit vector. -/
def stepStepOf {σ : Type} (blank : Int) (vocabSize : Nat)
    (dj : Nat → Int → σ → σ → DJOut σ) (s : LoopState σ) : Nat :=
  stepOf ((djAt blank dj s).outputs.drop vocabSize)

/-- `emitted_tokens` as it stands at the frame-advancement check of one
iteration (stt.rs:404,411): incremented exactly when the selected token
is not the blank. -/
def emittedAfter {σ : Type} (blank : Int) (vocabSize : Nat)
    (dj : Nat → Int → σ → σ → DJOut σ) (s : LoopState σ) : Nat :=
  if stepTokenOf blank vocabSize dj s ≠ blank then s.emitted + 1
  else s.emitted

/-- The emitted-token list after one iteration (stt.rs:403). -/
def nextTokens {σ : Type} (blank : Int) (vocabSize : Nat)
    (dj : Nat → Int → σ → σ → DJOut σ) (s : LoopState σ) : List Int :=
  if stepTokenOf blank vocabSize dj s ≠ blank then
    s.tokens ++ [stepTokenOf blank vocabSize dj s]
  else s.tokens

/-- The first recurrent tensor after one iteration (stt.rs:385-393):
replaced by the decoder's returned state only on a non-blank token. -/
def nextS1 {σ : Type} (blank : Int) (vocabSize : Nat)
    (dj : Nat → Int → σ → σ → DJOut σ) (s : LoopState σ) : σ :=
  if stepTokenOf blank vocabSize dj s ≠ blank then (djAt blank dj s).state1
  else s.s1

/-- The second recurrent tensor after one iteration (stt.rs:395-401). -/
def nextS2 {σ : Type} (blank : Int) (vocabSize : Nat)
    (dj : Nat → Int → σ → σ → DJOut σ) (s : LoopState σ) : σ :=
  if stepTokenOf blank vocabSize dj s ≠ blank then (djAt blank dj s).state2
  else s.s2

/-- One iteration of the decode loop body (stt.rs:306-414). `none` is the
panic of the slice `&outputs_flat[..self.vocab_size]` (stt.rs:358) when
the decoder returned fewer than `vocab_size` logits; otherwise the
emission update followed by the mutually exclusive, ordered
frame-advancement rule of stt.rs:407-414. -/
def decodeStep {σ : Type} (blank : Int) (vocabSize : Nat)
    (dj : Nat → Int → σ → σ → DJOut σ) (s : LoopState σ) :
    Option (LoopState σ) :=
  if vocabSize ≤ (djAt blank dj s).outputs.length then
    if 0 < stepStepOf blank vocabSize dj s then
      some ⟨nextTokens blank vocabSize dj s,
            s.t + stepStepOf blank vocabSize dj s, 0,
            nextS1 blank vocabSize dj s, nextS2 blank vocabSize dj s⟩
    else if stepTokenOf blank vocabSize dj s = blank ∨
        maxTokensPerStep ≤ emittedAfter blank vocabSize dj s then
      some ⟨nextTokens blank vocabSize dj s, s.t + 1, 0,
            nextS1 blank vocabSize dj s, nextS2 blank vocabSize dj s⟩
    else
      some ⟨nextTokens blank vocabSize dj s, s.t,
            emittedAfter blank vocabSize dj s,
            nextS1 blank vocabSize dj s, nextS2 blank vocabSize dj s⟩
  else none

/-- Termination measure of the decode loop: frames left, weighted by the
per-frame iteration cap, plus the room left in the emission counter. -/
def loopMeasure {σ : Type} (L : Nat) (s : LoopState σ) : Nat :=
  (L - s.t) * (maxTokensPerStep + 1) +
    (maxTokensPerStep - min s.emitted maxTokensPerStep)

/-- The decode loop `while t < encoded_len && t < num_frames`
(stt.rs:305-415) with `L = min encoded_len num_frames`, instrumented with
the count of decoder-joint invocations performed (which the source makes
but does not count). `none` propagates the slice panic. -/
def decodeLoop {σ : Type} (blank : Int) (vocabSize : Nat)
    (dj : Nat → Int → σ → σ → DJOut σ) (L : Nat) (s : LoopState σ) :
    Option (LoopState σ × Nat) :=
  if h : s.t < L then
    match h2 : decodeStep blank vocabSize dj s with
    | none => none
    | some s' =>
      match decodeLoop blank vocabSize dj L s' with
      | none => none
      | some (r, n) => some (r, n + 1)
  else some (s, 0)
termination_by loopMeasure L s
decreasing_by
  unfold decodeStep at h2
  split at h2
  · split at h2
    · cases h2
      dsimp only [loopMeasure, maxTokensPerStep]
      omega
    · split at h2
      · cases h2
        dsimp only [loopMeasure, maxTokensPerStep]
        omega
      · cases h2
        rename_i hlen hstp hadv
        rw [not_or] at hadv
        have htok : stepTokenOf blank vocabSize dj s ≠ blank := hadv.1
        have hcap : emittedAfter blank vocabSize dj s < maxTokensPerStep :=
          by omega
        dsimp only [loopMeasure, maxTokensPerStep] at hcap ⊢
        rw [emittedAfter, if_pos htok] at hcap ⊢
        omega
  · exact absurd h2 (by simp)

/-- `k` consecutive iterations of the decode loop body, `none` as soon as
one panics. -/
def stepN {σ : Type} (blank : Int) (vocabSize : Nat)
    (dj : Nat → Int → σ → σ → DJOut σ) : Nat → LoopState σ →
    Option (LoopState σ)
  | 0, s => some s
  | k + 1, s =>
    match decodeStep blank vocabSize dj s with
    | none => none
    | some s' => stepN blank vocabSize dj k s'

/-! ## Detokenization and the `transcribe` entry point -/

/-- stt.rs:418-423: concatenate the vocabulary fragments of the emitted
ids in order; ids with no entry contribute nothing. -/
def detokenize (vocab : List (Int × RStr)) (tokens : List Int) : RStr :=
  tokens.foldl
    (fun text id =>
      match vocab.lookup id with
      | some frag => text ++ frag
      | none => text)
    []

/-- Rust `str::split_whitespace`: maximal whitespace-free runs. -/
def splitWhitespaceL (l : RStr) : List RStr :=
  (splitOnPred Char.isWhitespace l).filter fun w => w ≠ []

/-- stt.rs:426: `text.trim().split_whitespace().collect::<Vec<_>>()
.join(" ")`. -/
def normalizeWs (l : RStr) : RStr :=
  List.intercalate (rs " ") (splitWhitespaceL (rustTrim l))

/-- The recurrent-state tensor type: `[num_layers=2, batch=1,
hidden=640]` (stt.rs:293-297). -/
def RecState : Type := Fin 2 → Fin 1 → Fin 640 → ℚ

/-- `Array3::<f32>::zeros((2, 1, 640))` (stt.rs:296-297). -/
def zeroRecState : RecState := fun _ _ _ => 0

/-- The loop state `transcribe` starts every decode with
(stt.rs:296-303): no tokens, `t = 0`, `emitted_tokens = 0`, both
recurrent tensors zero. -/
def initLoopState : LoopState RecState :=
  ⟨[], 0, 0, zeroRecState, zeroRecState⟩

/-- The encoder metadata the decode loop reads from the
preprocessor+encoder stages: `encoded_len = encoder_lens[0] as usize`
(stt.rs:303) and `num_frames = encoder_shape[2]` (stt.rs:287). -/
structure EncMeta where
  encodedLen : Nat
  numFrames : Nat

/-- The outcome of `transcribe`: `Ok(text)`, `Err(msg)`, or a Rust
panic (which is neither). -/
inductive TranscribeResult
  | ok (text : RStr)
  | err (msg : RStr)
  | panicked
deriving DecidableEq

/-- `SttState::transcribe` (stt.rs:208-429): the session checks in
source order, the empty-audio short circuit, the preprocessor+encoder
stages as one oracle `pipeline` (covering every `map_err` of
stt.rs:220-287), the decode loop over `min encoded_len num_frames`
frames, then detokenization and whitespace cleanup. -/
def transcribe {σ : Type} (st : SttState σ) (audio : List ℚ)
    (pipeline : List ℚ → Except RStr EncMeta)
    (dj : Nat → Int → RecState → RecState → DJOut RecState) :
    TranscribeResult :=
  match st.preprocessor_session with
  | none => .err (rs "Preprocessor not loaded")
  | some _ =>
    match st.encoder_session with
    | none => .err (rs "Encoder not loaded")
    | some _ =>
      match st.decoder_session with
      | none => .err (rs "Decoder not loaded")
      | some _ =>
        if audio.isEmpty then .ok []
        else
          match pipeline audio with
          | .error e => .err e
          | .ok meta =>
            match decodeLoop st.blank_idx st.vocab_size dj
                (min meta.encodedLen meta.numFrames) initLoopState with
            | none => .panicked
            | some (s, _) =>
              .ok (normalizeWs (detokenize st.vocab s.tokens))

/-! ## Helper lemmas: the `max_by` fold on comparable values -/

theorem qcmp_gt_iff (a b : ℚ) : qcmp a b = .gt ↔ b < a := by
  unfold qcmp
  by_cases h1 : a < b
  · simp [h1, not_lt.mpr h1.le]
  · by_cases h2 : b < a
    · simp [h1, h2]
    · simp [h1, h2]

/-- The ℚ-level fold underlying `max_by` on an enumerated list. -/
def pickQ (a y : Nat × ℚ) : Nat × ℚ :=
  if qcmp a.2 y.2 = .gt then a else y

theorem foldl_pickQ_spec :
    ∀ (ps : List (Nat × ℚ)) (a : Nat × ℚ),
      ((a :: ps).Pairwise fun p q => p.1 < q.1) →
      (ps.foldl pickQ a ∈ a :: ps) ∧
      (∀ p ∈ a :: ps, p.2 ≤ (ps.foldl pickQ a).2) ∧
      (∀ p ∈ a :: ps, p.2 = (ps.foldl pickQ a).2 →
        p.1 ≤ (ps.foldl pickQ a).1) := by
  intro ps
  induction ps with
  | nil =>
    intro a _
    refine ⟨List.mem_singleton.mpr rfl, ?_, ?_⟩
    · intro p hp
      rw [List.mem_singleton.mp hp]
      exact le_rfl
    · intro p hp _
      rw [List.mem_singleton.mp hp]
      exact le_rfl
  | cons y tl ih =>
    intro a hpw
    have hay : a.1 < y.1 := (List.pairwise_cons.mp hpw).1 y (by simp)
    have hpw' : ((pickQ a y :: tl).Pairwise fun p q => p.1 < q.1) := by
      have h1 := List.pairwise_cons.mp hpw
      have h2 := List.pairwise_cons.mp h1.2
      refine List.pairwise_cons.mpr ⟨?_, h2.2⟩
      intro q hq
      unfold pickQ
      split
      · exact h1.1 q (by simp [hq])
      · exact h2.1 q hq
    obtain ⟨hmem, hub, hties⟩ := ih (pickQ a y) hpw'
    have hfold : (y :: tl).foldl pickQ a = tl.foldl pickQ (pickQ a y) := rfl
    rw [hfold]
    set r := tl.foldl pickQ (pickQ a y) with hr
    have hpick_mem : pickQ a y = a ∨ pickQ a y = y := by
      unfold pickQ; split
      · exact Or.inl rfl
      · exact Or.inr rfl
    have hpick_ub : a.2 ≤ (pickQ a y).2 ∧ y.2 ≤ (pickQ a y).2 := by
      unfold pickQ; split
      · next hgt => exact ⟨le_refl _, le_of_lt ((qcmp_gt_iff _ _).mp hgt)⟩
      · next hgt =>
        refine ⟨?_, le_refl _⟩
        by_contra hcon
        exact hgt ((qcmp_gt_iff _ _).mpr (lt_of_not_le hcon))
    have hpick_ub_r : (pickQ a y).2 ≤ r.2 := hub _ (by simp)
    have har : a.2 ≤ r.2 := le_trans hpick_ub.1 hpick_ub_r
    have hyr : y.2 ≤ r.2 := le_trans hpick_ub.2 hpick_ub_r
    refine ⟨?_, ?_, ?_⟩
    · rcases List.mem_cons.mp hmem with h | h
      · rcases hpick_mem with h2 | h2
        · rw [h, h2]; simp
        · rw [h, h2]; simp
      · simp [h]
    · intro p hp
      rcases List.mem_cons.mp hp with h | hp2
      · rw [h]; exact har
      · rcases List.mem_cons.mp hp2 with h | h
        · rw [h]; exact hyr
        · exact hub p (by simp [h])
    · intro p hp hpe
      rcases List.mem_cons.mp hp with h | hp2
      · -- p = a: if the pick kept a, the tie bound is inherited; if it
        -- moved to y, then y also attains the maximum and a.1 < y.1.
        rcases hpick_mem with h2 | h2
        · have hin := hties (pickQ a y) (List.mem_cons_self _ _)
            (by rw [h2, ← h]; exact hpe)
          rw [h2] at hin
          rw [h]; exact hin
        · have hy2 : y.2 = r.2 := by
            have haa : a.2 = r.2 := by rw [← h]; exact hpe
            linarith [hpick_ub.1, hyr, h2 ▸ hpick_ub.1]
          have hyles : y.1 ≤ r.1 := by
            have hin := hties (pickQ a y) (List.mem_cons_self _ _)
              (by rw [h2]; exact hy2)
            rw [h2] at hin
            exact hin
          rw [h]; exact le_trans (le_of_lt hay) hyles
      · rcases List.mem_cons.mp hp2 with h | h
        · -- p = y: if the pick kept a, then y.2 < a.2 ≤ r.2 contradicts
          -- the tie; else the bound is inherited.
          rcases hpick_mem with h2 | h2
          · exfalso
            have hgt : qcmp a.2 y.2 = .gt := by
              by_contra hcon
              unfold pickQ at h2
              rw [if_neg hcon] at h2
              exact absurd (h2 ▸ hay) (lt_irrefl _)
            have hylt : y.2 < a.2 := (qcmp_gt_iff _ _).mp hgt
            have hye : y.2 = r.2 := by rw [← h]; exact hpe
            linarith
          · have hin := hties (pickQ a y) (List.mem_cons_self _ _)
              (by rw [h2, ← h]; exact hpe)
            rw [h2] at hin
            rw [h]; exact hin
        · exact hties p (by simp [h]) hpe

theorem mem_enumFrom_spec (l : List ℚ) :
    ∀ (n : Nat) (p : Nat × ℚ), p ∈ List.enumFrom n l →
      n ≤ p.1 ∧ p.1 - n < l.length ∧ l.getD (p.1 - n) 0 = p.2 := by
  induction l with
  | nil => intro n p hp; cases hp
  | cons x xs ih =>
    intro n p hp
    rcases List.mem_cons.mp hp with h | h
    · rw [h]
      refine ⟨le_refl _, ?_, ?_⟩
      · simp
      · simp
    · obtain ⟨h1, h2, h3⟩ := ih (n + 1) p h
      refine ⟨by omega, by simp; omega, ?_⟩
      have he : p.1 - n = (p.1 - (n + 1)) + 1 := by omega
      rw [he, List.getD_cons_succ]
      exact h3

theorem getD_mem_enumFrom (l : List ℚ) :
    ∀ (n j : Nat), j < l.length →
      (n + j, l.getD j 0) ∈ List.enumFrom n l := by
  induction l with
  | nil => intro n j hj; simp at hj
  | cons x xs ih =>
    intro n j hj
    match j with
    | 0 => simp
    | k + 1 =>
      have hmem := ih (n + 1) k (by simpa using hj)
      rw [List.getD_cons_succ]
      have he : n + (k + 1) = (n + 1) + k := by omega
      rw [he]
      exact List.mem_cons.mpr (Or.inr hmem)

theorem pairwise_enumFrom (l : List ℚ) :
    ∀ n, (List.enumFrom n l).Pairwise fun p q => p.1 < q.1 := by
  induction l with
  | nil => intro n; simp [List.enumFrom]
  | cons x xs ih =>
    intro n
    refine List.pairwise_cons.mpr ⟨?_, ih (n + 1)⟩
    intro q hq
    exact lt_of_lt_of_le (Nat.lt_succ_self n) (mem_enumFrom_spec xs (n + 1) q hq).1

theorem enumFrom_map_num (l : List ℚ) :
    ∀ n, List.enumFrom n (l.map FVal.num) =
      (List.enumFrom n l).map fun p => (p.1, FVal.num p.2) := by
  induction l with
  | nil => intro n; rfl
  | cons x xs ih =>
    intro n
    show (n, FVal.num x) :: List.enumFrom (n + 1) (xs.map FVal.num) = _
    rw [ih (n + 1)]
    rfl

theorem foldl_pickF_map (ps : List (Nat × ℚ)) :
    ∀ a : Nat × ℚ,
      (ps.map fun p => (p.1, FVal.num p.2)).foldl
        (fun x y => if fcmp x.2 y.2 = .gt then x else y)
        (a.1, FVal.num a.2)
      = ((ps.foldl pickQ a).1, FVal.num (ps.foldl pickQ a).2) := by
  induction ps with
  | nil => intro a; rfl
  | cons y tl ih =>
    intro a
    show (tl.map _).foldl _
        (if fcmp (FVal.num a.2) (FVal.num y.2) = .gt then (a.1, FVal.num a.2)
          else (y.1, FVal.num y.2)) = _
    have hstep :
        (if fcmp (FVal.num a.2) (FVal.num y.2) = .gt then (a.1, FVal.num a.2)
          else (y.1, FVal.num y.2))
        = ((pickQ a y).1, FVal.num (pickQ a y).2) := by
      have hf : fcmp (FVal.num a.2) (FVal.num y.2) = qcmp a.2 y.2 := rfl
      rw [hf]
      unfold pickQ
      split
      · rfl
      · rfl
    rw [hstep]
    have := ih (pickQ a y)
    rw [this]
    rfl

/-- The `max_by` scan of the source, on an all-comparable logit vector,
selects the *greatest* index attaining the maximum value. -/
theorem tokenOf_num_spec (l : List ℚ) (blank : Int) (hne : l ≠ []) :
    ∃ i : Nat, tokenOf (l.map FVal.num) blank = (i : Int) ∧ i < l.length ∧
      (∀ j, j < l.length → l.getD j 0 ≤ l.getD i 0) ∧
      (∀ j, j < l.length → l.getD i 0 ≤ l.getD j 0 → j ≤ i) := by
  match l, hne with
  | x :: xs, _ =>
    set rq := (List.enumFrom 1 xs).foldl pickQ (0, x) with hrq
    have henum : (List.enum ((x :: xs).map FVal.num)) =
        (0, FVal.num x) ::
          (List.enumFrom 1 xs).map fun p => (p.1, FVal.num p.2) := by
      show (0, FVal.num x) :: List.enumFrom 1 (xs.map FVal.num) = _
      rw [enumFrom_map_num xs 1]
    have hcomp : tokenOf ((x :: xs).map FVal.num) blank = (rq.1 : Int) := by
      unfold tokenOf
      rw [henum]
      show (((List.enumFrom 1 xs).map fun p => (p.1, FVal.num p.2)).foldl
        (fun a y => if fcmp a.2 y.2 = .gt then a else y)
        ((0 : Nat), FVal.num x)).1 = (rq.1 : Int)
      have := foldl_pickF_map (List.enumFrom 1 xs) (0, x)
      rw [this]
    have hpw : (((0 : Nat), x) :: List.enumFrom 1 xs).Pairwise
        fun p q => p.1 < q.1 := pairwise_enumFrom (x :: xs) 0
    obtain ⟨hmem, hub, hties⟩ := foldl_pickQ_spec (List.enumFrom 1 xs) (0, x) hpw
    have hmem' : rq ∈ List.enumFrom 0 (x :: xs) := hmem
    obtain ⟨-, hlt, hget⟩ := mem_enumFrom_spec (x :: xs) 0 rq hmem'
    rw [Nat.sub_zero] at hlt hget
    refine ⟨rq.1, hcomp, hlt, ?_, ?_⟩
    · intro j hj
      have hj_mem : ((j : Nat), (x :: xs).getD j 0) ∈
          List.enumFrom 0 (x :: xs) := by
        have := getD_mem_enumFrom (x :: xs) 0 j hj
        rwa [Nat.zero_add] at this
      have := hub _ hj_mem
      rw [hget]
      exact this
    · intro j hj hge
      have hj_mem : ((j : Nat), (x :: xs).getD j 0) ∈
          List.enumFrom 0 (x :: xs) := by
        have := getD_mem_enumFrom (x :: xs) 0 j hj
        rwa [Nat.zero_add] at this
      have hle := hub _ hj_mem
      have heq : (x :: xs).getD j 0 = rq.2 := by
        rw [hget] at hge
        exact le_antisymm hle hge
      exact hties _ hj_mem heq

/-- On a non-empty logit vector the duration head runs the very same
`enumerate().max_by(..)` scan as the token head, so the selected step is
the token-style selected index (the `unwrap_or(0)` of the source is the
unreachable empty-iterator case). -/
theorem stepOf_eq_tokenOf (logits : List FVal) (blank : Int)
    (hne : logits ≠ []) :
    (stepOf logits : Int) = tokenOf logits blank := by
  match logits, hne with
  | x :: xs, _ => rfl

/-- The `max_by` scan of the source, on an all-comparable duration-logit
vector, selects the *greatest* index attaining the maximum value. -/
theorem stepOf_num_spec (l : List ℚ) (hne : l ≠ []) :
    ∃ i : Nat, stepOf (l.map FVal.num) = i ∧ i < l.length ∧
      (∀ j, j < l.length → l.getD j 0 ≤ l.getD i 0) ∧
      (∀ j, j < l.length → l.getD i 0 ≤ l.getD j 0 → j ≤ i) := by
  obtain ⟨i, h1, h2, h3, h4⟩ := tokenOf_num_spec l 0 hne
  refine ⟨i, ?_, h2, h3, h4⟩
  have hmap : l.map FVal.num ≠ [] := by
    intro hc
    exact hne (List.map_eq_nil_iff.mp hc)
  have hcast := stepOf_eq_tokenOf (l.map FVal.num) 0 hmap
  rw [h1] at hcast
  exact_mod_cast hcast

/-! ## Helper lemmas: one decode iteration and the loop -/

theorem decodeStep_some_elim {σ : Type} {blank : Int} {vs : Nat}
    {dj : Nat → Int → σ → σ → DJOut σ} {s s' : LoopState σ}
    (h : decodeStep blank vs dj s = some s') :
    vs ≤ (djAt blank dj s).outputs.length ∧
    s'.tokens = nextTokens blank vs dj s ∧
    s'.s1 = nextS1 blank vs dj s ∧ s'.s2 = nextS2 blank vs dj s ∧
    ((0 < stepStepOf blank vs dj s ∧
        s'.t = s.t + stepStepOf blank vs dj s ∧ s'.emitted = 0) ∨
      (stepStepOf blank vs dj s = 0 ∧
        (stepTokenOf blank vs dj s = blank ∨
          maxTokensPerStep ≤ emittedAfter blank vs dj s) ∧
        s'.t = s.t + 1 ∧ s'.emitted = 0) ∨
      (stepStepOf blank vs dj s = 0 ∧ stepTokenOf blank vs dj s ≠ blank ∧
        emittedAfter blank vs dj s < maxTokensPerStep ∧
        s'.t = s.t ∧ s'.emitted = emittedAfter blank vs dj s ∧
        s'.emitted = s.emitted + 1)) := by
  unfold decodeStep at h
  split at h
  · next hlen =>
    split at h
    · next hstp =>
      cases h
      exact ⟨hlen, rfl, rfl, rfl, Or.inl ⟨hstp, rfl, rfl⟩⟩
    · next hstp =>
      split at h
      · next hadv =>
        cases h
        exact ⟨hlen, rfl, rfl, rfl, Or.inr (Or.inl
          ⟨by omega, hadv, rfl, rfl⟩)⟩
      · next hadv =>
        cases h
        rw [not_or] at hadv
        refine ⟨hlen, rfl, rfl, rfl, Or.inr (Or.inr
          ⟨by omega, hadv.1, by omega, rfl, rfl, ?_⟩)⟩
        show emittedAfter blank vs dj s = s.emitted + 1
        rw [emittedAfter, if_pos hadv.1]
  · cases h

theorem decodeStep_t_mono {σ : Type} {blank : Int} {vs : Nat}
    {dj : Nat → Int → σ → σ → DJOut σ} {s s' : LoopState σ}
    (h : decodeStep blank vs dj s = some s') : s.t ≤ s'.t := by
  rcases (decodeStep_some_elim h).2.2.2.2 with h1 | h1 | h1 <;> omega

theorem decodeStep_stay {σ : Type} {blank : Int} {vs : Nat}
    {dj : Nat → Int → σ → σ → DJOut σ} {s s' : LoopState σ}
    (h : decodeStep blank vs dj s = some s') (ht : s'.t = s.t) :
    s'.emitted = s.emitted + 1 ∧ s'.emitted < maxTokensPerStep := by
  rcases (decodeStep_some_elim h).2.2.2.2 with h1 | h1 | h1 <;> omega

theorem decodeStep_measure_lt {σ : Type} {blank : Int} {vs : Nat}
    {dj : Nat → Int → σ → σ → DJOut σ} {s s' : LoopState σ} {L : Nat}
    (hL : s.t < L) (h : decodeStep blank vs dj s = some s') :
    loopMeasure L s' < loopMeasure L s := by
  rcases (decodeStep_some_elim h).2.2.2.2 with h1 | h1 | h1 <;>
    · dsimp only [loopMeasure, maxTokensPerStep] at *
      omega

theorem stepN_mono_spec {σ : Type} {blank : Int} {vs : Nat}
    {dj : Nat → Int → σ → σ → DJOut σ} :
    ∀ (k : Nat) (s s' : LoopState σ), stepN blank vs dj k s = some s' →
      s.t ≤ s'.t ∧
      (s'.t = s.t → s'.emitted = s.emitted + k ∧
        (0 < k → s'.emitted < maxTokensPerStep)) := by
  intro k
  induction k with
  | zero =>
    intro s s' h
    cases h
    exact ⟨le_refl _, fun _ => ⟨rfl, fun h0 => absurd h0 (by omega)⟩⟩
  | succ k ih =>
    intro s s' h
    simp only [stepN] at h
    cases hd : decodeStep blank vs dj s with
    | none => rw [hd] at h; cases h
    | some s1 =>
      rw [hd] at h
      obtain ⟨hm1, hrest⟩ := ih s1 s' h
      have hm0 := decodeStep_t_mono hd
      refine ⟨le_trans hm0 hm1, ?_⟩
      intro hte
      have ht1 : s1.t = s.t := by omega
      obtain ⟨he1, he2⟩ := decodeStep_stay hd ht1
      obtain ⟨hk1, hk2⟩ := hrest (by omega)
      refine ⟨by omega, fun _ => ?_⟩
      rcases Nat.eq_zero_or_pos k with hk | hk
      · subst hk
        cases h
        omega
      · exact hk2 hk

theorem decodeLoop_count_le {σ : Type} {blank : Int} {vs : Nat}
    {dj : Nat → Int → σ → σ → DJOut σ} {L : Nat} :
    ∀ (m : Nat) (s : LoopState σ) (r : LoopState σ) (n : Nat),
      loopMeasure L s ≤ m → decodeLoop blank vs dj L s = some (r, n) →
      n ≤ loopMeasure L s := by
  intro m
  induction m with
  | zero =>
    intro s r n hm h
    have hnt : ¬s.t < L := by
      intro hlt
      have : 1 ≤ L - s.t := by omega
      dsimp only [loopMeasure, maxTokensPerStep] at hm
      omega
    rw [decodeLoop.eq_def] at h
    rw [dif_neg hnt] at h
    cases h
    exact Nat.zero_le _
  | succ m ih =>
    intro s r n hm h
    rw [decodeLoop.eq_def] at h
    by_cases hlt : s.t < L
    · rw [dif_pos hlt] at h
      split at h
      · cases h
      · next s1 hd =>
        split at h
        · cases h
        · rename_i r1 n1 hl
          cases h
          have hdec := decodeStep_measure_lt hlt hd
          have := ih s1 _ _ (by omega) hl
          omega
    · rw [dif_neg hlt] at h
      cases h
      exact Nat.zero_le _

/-! ## Helper lemmas: vocabulary loading and detokenization -/

/-- The map built by the parse loop, and the error it stops with, do not
depend on the incoming `blank_idx` (only the final `blank_idx` does). -/
theorem loadVocabLines_vocab_indep :
    ∀ (lines : List RStr) (v : List (Int × RStr)) (b1 b2 : Int),
      (loadVocabLines lines v b1).1.1 = (loadVocabLines lines v b2).1.1 ∧
      (loadVocabLines lines v b1).2 = (loadVocabLines lines v b2).2 := by
  intro lines
  induction lines with
  | nil => intro v b1 b2; exact ⟨rfl, rfl⟩
  | cons line rest ih =>
    intro v b1 b2
    unfold loadVocabLines
    split
    · split
      · exact ⟨rfl, rfl⟩
      · next id _ =>
        split
        · exact ih _ id id
        · exact ih _ b1 b2
    · exact ih v b1 b2

/-- Unfolding `load_vocab` on readable content through the result of the
parse loop. -/
theorem load_vocab_ok_eq {σ : Type} (st : SttState σ) (c : RStr) :
    load_vocab st (.ok c) =
      match loadVocabLines (rustLines c) [] st.blank_idx with
      | ((v, b), some e) =>
        ({ st with vocab := v, blank_idx := b }, some e)
      | ((v, b), none) =>
        ({ st with vocab := v, blank_idx := b, vocab_size := v.length },
          none) := rfl

/-- The table `load_vocab` leaves behind never depends on the table it
started from - neither on success nor on a parse failure - and the error
outcome does not either. -/
theorem load_vocab_discards_old {σ1 σ2 : Type} (st1 : SttState σ1)
    (st2 : SttState σ2) (c : RStr) :
    (load_vocab st1 (.ok c)).1.vocab = (load_vocab st2 (.ok c)).1.vocab ∧
    (load_vocab st1 (.ok c)).2 = (load_vocab st2 (.ok c)).2 := by
  obtain ⟨hv, he⟩ :=
    loadVocabLines_vocab_indep (rustLines c) [] st1.blank_idx st2.blank_idx
  rw [load_vocab_ok_eq, load_vocab_ok_eq]
  rcases h1 : loadVocabLines (rustLines c) [] st1.blank_idx with ⟨⟨v1, b1⟩, e1⟩
  rcases h2 : loadVocabLines (rustLines c) [] st2.blank_idx with ⟨⟨v2, b2⟩, e2⟩
  rw [h1, h2] at hv he
  simp only at hv he
  subst hv
  subst he
  cases e1 <;> simp

theorem detokenize_foldl_eq (v : List (Int × RStr)) :
    ∀ (ids : List Int) (acc : RStr),
      ids.foldl
        (fun text id =>
          match v.lookup id with
          | some frag => text ++ frag
          | none => text) acc
      = acc ++ (ids.filterMap fun i => v.lookup i).flatten := by
  intro ids
  induction ids with
  | nil => intro acc; simp
  | cons i tl ih =>
    intro acc
    show tl.foldl _
      (match v.lookup i with
        | some frag => acc ++ frag
        | none => acc) = _
    cases h : v.lookup i with
    | none => rw [ih]; simp [List.filterMap_cons, h]
    | some frag => rw [ih]; simp [List.filterMap_cons, h]

theorem detokenize_eq_join (v : List (Int × RStr)) (ids : List Int) :
    detokenize v ids = (ids.filterMap fun i => v.lookup i).flatten := by
  unfold detokenize
  rw [detokenize_foldl_eq]
  simp

theorem filterMap_filter_isSome (v : List (Int × RStr)) :
    ∀ ids : List Int,
      ((ids.filter fun i => (v.lookup i).isSome).filterMap
        fun i => v.lookup i)
      = ids.filterMap fun i => v.lookup i := by
  intro ids
  induction ids with
  | nil => rfl
  | cons i tl ih =>
    cases h : v.lookup i with
    | none =>
      rw [List.filter_cons, List.filterMap_cons]
      simp only [h]
      simpa [h] using ih
    | some frag =>
      rw [List.filter_cons, List.filterMap_cons]
      simp only [h]
      simp only [Option.isSome_some, if_pos]
      rw [List.filterMap_cons]
      simp only [h]
      rw [ih]

/-! ## The claims -/

/-- C1 counterexample: the claim says the *first* index wins on ties
(and when all comparisons are indeterminate); the source's
`Iterator::max_by` keeps the *last* of equally-maximum candidates, and
on an all-NaN vector (every comparison indeterminate, forced to
`Equal`) it likewise returns the last index. At `[1, 1]` (tie) and at
`[NaN, NaN]` the code yields index `1` where the claimed rule - here
`specTokenFirstWins`, written from the spec's words - yields `0`. -/
theorem C1_counterexample :
    tokenOf [FVal.num 1, FVal.num 1] 5 = 1 ∧
    specTokenFirstWins [FVal.num 1, FVal.num 1] 5 = 0 ∧
    tokenOf [FVal.nan, FVal.nan] 5 = 1 ∧
    specTokenFirstWins [FVal.nan, FVal.nan] 5 = 0 := by
  refine ⟨rfl, rfl, rfl, rfl⟩

/-- C1 (amended): in each decode iteration the emitted token is the
index of the maximum token logit and the step the index of the maximum
duration logit, where on ties (or indeterminate comparisons, treated as
equal) the *last* index wins - on an all-comparable vector the selected
token index, and likewise the selected duration step, attains the
maximum value and is the greatest such index; the token falls back to
`blankId` on an empty logit vector, and the step is `0` when there are
no duration logits. -/
theorem C1_token_argmax :
    (∀ (l : List ℚ) (blank : Int), l ≠ [] →
      ∃ i : Nat, tokenOf (l.map FVal.num) blank = (i : Int) ∧
        i < l.length ∧
        (∀ j, j < l.length → l.getD j 0 ≤ l.getD i 0) ∧
        (∀ j, j < l.length → l.getD i 0 ≤ l.getD j 0 → j ≤ i)) ∧
    (∀ l : List ℚ, l ≠ [] →
      ∃ i : Nat, stepOf (l.map FVal.num) = i ∧
        i < l.length ∧
        (∀ j, j < l.length → l.getD j 0 ≤ l.getD i 0) ∧
        (∀ j, j < l.length → l.getD i 0 ≤ l.getD j 0 → j ≤ i)) ∧
    (∀ blank : Int, tokenOf [] blank = blank) ∧
    stepOf [] = 0 ∧
    (∀ (σ : Type) (blank : Int) (vs : Nat)
      (dj : Nat → Int → σ → σ → DJOut σ) (s : LoopState σ),
      stepTokenOf blank vs dj s =
        tokenOf ((djAt blank dj s).outputs.take vs) blank ∧
      stepStepOf blank vs dj s =
        stepOf ((djAt blank dj s).outputs.drop vs)) :=
  ⟨tokenOf_num_spec, stepOf_num_spec, fun _ => rfl, rfl,
    fun _ _ _ _ _ => ⟨rfl, rfl⟩⟩

/-- C1 witness: the token and duration parts of the amended theorem
applied to the concrete logit vectors `[1, 2]` and `[3, 3]` (the
duration tie resolving to the last index). -/
theorem C1_token_argmax_witness :
    (∃ i : Nat, tokenOf ([(1 : ℚ), 2].map FVal.num) 0 = (i : Int) ∧
      i < [(1 : ℚ), 2].length ∧
      (∀ j, j < [(1 : ℚ), 2].length →
        [(1 : ℚ), 2].getD j 0 ≤ [(1 : ℚ), 2].getD i 0) ∧
      (∀ j, j < [(1 : ℚ), 2].length →
        [(1 : ℚ), 2].getD i 0 ≤ [(1 : ℚ), 2].getD j 0 → j ≤ i)) ∧
    (∃ i : Nat, stepOf ([(3 : ℚ), 3].map FVal.num) = i ∧
      i < [(3 : ℚ), 3].length ∧
      (∀ j, j < [(3 : ℚ), 3].length →
        [(3 : ℚ), 3].getD j 0 ≤ [(3 : ℚ), 3].getD i 0) ∧
      (∀ j, j < [(3 : ℚ), 3].length →
        [(3 : ℚ), 3].getD i 0 ≤ [(3 : ℚ), 3].getD j 0 → j ≤ i)) :=
  ⟨C1_token_argmax.1 [1, 2] 0 (by decide),
    C1_token_argmax.2.1 [3, 3] (by decide)⟩

/-- C2: across decode iterations the frame index `t` never decreases;
within any `maxTokensPerFrame + 1` consecutive iterations `t` strictly
increases at least once; and a completed loop run from the initial
state makes at most `L * (maxTokensPerFrame + 1) + maxTokensPerFrame`
decoder-joint invocations (the loop itself is total by the same
measure, so it terminates for every finite `L`). -/
theorem C2_loop_progress_termination :
    (∀ (σ : Type) (blank : Int) (vs : Nat)
      (dj : Nat → Int → σ → σ → DJOut σ) (s s' : LoopState σ),
      decodeStep blank vs dj s = some s' → s.t ≤ s'.t) ∧
    (∀ (σ : Type) (blank : Int) (vs : Nat)
      (dj : Nat → Int → σ → σ → DJOut σ) (s s' : LoopState σ),
      stepN blank vs dj (maxTokensPerStep + 1) s = some s' →
      s.t < s'.t) ∧
    (∀ (σ : Type) (blank : Int) (vs : Nat)
      (dj : Nat → Int → σ → σ → DJOut σ) (L : Nat) (a b : σ)
      (r : LoopState σ) (n : Nat),
      decodeLoop blank vs dj L ⟨[], 0, 0, a, b⟩ = some (r, n) →
      n ≤ L * (maxTokensPerStep + 1) + maxTokensPerStep) := by
  refine ⟨?_, ?_, ?_⟩
  · intro σ blank vs dj s s' h
    exact decodeStep_t_mono h
  · intro σ blank vs dj s s' h
    obtain ⟨hm, hrest⟩ := stepN_mono_spec _ s s' h
    rcases lt_or_eq_of_le hm with hlt | heq
    · exact hlt
    · obtain ⟨he1, he2⟩ := hrest heq.symm
      have := he2 (by dsimp only [maxTokensPerStep]; omega)
      dsimp only [maxTokensPerStep] at he1 this
      omega
  · intro σ blank vs dj L a b r n h
    have hb := decodeLoop_count_le (loopMeasure L ⟨[], 0, 0, a, b⟩)
      ⟨[], 0, 0, a, b⟩ r n le_rfl h
    dsimp only [loopMeasure, maxTokensPerStep] at hb ⊢
    omega

/-- C2 witness: the three parts applied to a concrete always-blank
decoder stub (each iteration advances `t` by one) and to the loop at
`L = 0`. -/
theorem C2_loop_progress_termination_witness :
    ((⟨[], 0, 0, (), ()⟩ : LoopState Unit).t ≤
      (⟨[], 1, 0, (), ()⟩ : LoopState Unit).t) ∧
    ((⟨[], 0, 0, (), ()⟩ : LoopState Unit).t <
      (⟨[], 11, 0, (), ()⟩ : LoopState Unit).t) ∧
    (0 : Nat) ≤ 0 * (maxTokensPerStep + 1) + maxTokensPerStep := by
  refine ⟨?_, ?_, ?_⟩
  · exact C2_loop_progress_termination.1 Unit 0 1
      (fun _ _ _ _ => ⟨[FVal.num 1], (), ()⟩) _ _ (by decide)
  · exact C2_loop_progress_termination.2.1 Unit 0 1
      (fun _ _ _ _ => ⟨[FVal.num 1], (), ()⟩) _ _ (by decide)
  · exact C2_loop_progress_termination.2.2 Unit 0 1
      (fun _ _ _ _ => ⟨[FVal.num 1], (), ()⟩) 0 () () ⟨[], 0, 0, (), ()⟩ 0
      (by rw [decodeLoop.eq_def]; simp)

/-- C3: at the end of each decode iteration the frame advancement
follows exactly the ordered, mutually exclusive rule: `step > 0` first
(`t += step`, counter reset), else blank token or counter at
`maxTokensPerFrame = 10` (`t += 1`, counter reset), else `t` unchanged
with the counter as incremented by the emission. -/
theorem C3_frame_advancement :
    (∀ (σ : Type) (blank : Int) (vs : Nat)
      (dj : Nat → Int → σ → σ → DJOut σ) (s s' : LoopState σ),
      decodeStep blank vs dj s = some s' →
      (0 < stepStepOf blank vs dj s →
        s'.t = s.t + stepStepOf blank vs dj s ∧ s'.emitted = 0) ∧
      (stepStepOf blank vs dj s = 0 →
        (stepTokenOf blank vs dj s = blank ∨
          maxTokensPerStep ≤ emittedAfter blank vs dj s) →
        s'.t = s.t + 1 ∧ s'.emitted = 0) ∧
      (stepStepOf blank vs dj s = 0 →
        stepTokenOf blank vs dj s ≠ blank →
        emittedAfter blank vs dj s < maxTokensPerStep →
        s'.t = s.t ∧ s'.emitted = emittedAfter blank vs dj s)) ∧
    maxTokensPerStep = 10 := by
  refine ⟨fun σ blank vs dj s s' h => ?_, rfl⟩
  obtain ⟨-, -, -, -, hd⟩ := decodeStep_some_elim h
  refine ⟨fun hstp => ?_, fun hstp hc => ?_, fun hstp htok hcap => ?_⟩
  · rcases hd with h1 | h1 | h1
    · exact ⟨h1.2.1, h1.2.2⟩
    · omega
    · omega
  · rcases hd with h1 | h1 | h1
    · omega
    · exact ⟨h1.2.2.1, h1.2.2.2⟩
    · rcases hc with hc | hc
      · exact absurd hc h1.2.1
      · omega
  · rcases hd with h1 | h1 | h1
    · omega
    · rcases h1.2.1 with hc | hc
      · exact absurd hc htok
      · omega
    · exact ⟨h1.2.2.2.1, h1.2.2.2.2.1⟩

/-- C3 witness: a stub that emits token `1` with no duration logits at
the fresh frame `0` stays at the same frame with the counter at `1`. -/
theorem C3_frame_advancement_witness :
    (⟨[(1 : Int)], 0, 1, (), ()⟩ : LoopState Unit).t =
        (⟨[], 0, 0, (), ()⟩ : LoopState Unit).t ∧
      (⟨[(1 : Int)], 0, 1, (), ()⟩ : LoopState Unit).emitted =
        emittedAfter 0 2 (fun _ _ _ _ => ⟨[FVal.num 0, FVal.num 1], (), ()⟩)
          (⟨[], 0, 0, (), ()⟩ : LoopState Unit) :=
  (C3_frame_advancement.1 Unit 0 2
    (fun _ _ _ _ => ⟨[FVal.num 0, FVal.num 1], (), ()⟩) _ _
    (by decide)).2.2 (by decide) (by decide) (by decide)

/-- C9: the recurrent state pair starts every decode as the zero
tensors of shape `[2,1,640]`; an iteration whose token is the blank
carries both tensors unchanged, and an iteration emitting a non-blank
token replaces both with the tensors the decoder-joint call returned. -/
theorem C9_recurrent_state :
    (∀ (i : Fin 2) (j : Fin 1) (k : Fin 640),
      initLoopState.s1 i j k = 0 ∧ initLoopState.s2 i j k = 0) ∧
    (∀ (σ : Type) (blank : Int) (vs : Nat)
      (dj : Nat → Int → σ → σ → DJOut σ) (s s' : LoopState σ),
      decodeStep blank vs dj s = some s' →
      stepTokenOf blank vs dj s = blank →
      s'.s1 = s.s1 ∧ s'.s2 = s.s2) ∧
    (∀ (σ : Type) (blank : Int) (vs : Nat)
      (dj : Nat → Int → σ → σ → DJOut σ) (s s' : LoopState σ),
      decodeStep blank vs dj s = some s' →
      stepTokenOf blank vs dj s ≠ blank →
      s'.s1 = (djAt blank dj s).state1 ∧
        s'.s2 = (djAt blank dj s).state2) := by
  refine ⟨fun i j k => ⟨rfl, rfl⟩, ?_, ?_⟩
  · intro σ blank vs dj s s' h htok
    obtain ⟨-, -, h1, h2, -⟩ := decodeStep_some_elim h
    constructor
    · rw [h1, nextS1, if_neg (not_not_intro htok)]
    · rw [h2, nextS2, if_neg (not_not_intro htok)]
  · intro σ blank vs dj s s' h htok
    obtain ⟨-, -, h1, h2, -⟩ := decodeStep_some_elim h
    constructor
    · rw [h1, nextS1, if_pos htok]
    · rw [h2, nextS2, if_pos htok]

/-- C9 witness: the zero initialization at index `(0,0,0)` and the
unchanged state across a blank iteration of a concrete stub. -/
theorem C9_recurrent_state_witness :
    (initLoopState.s1 0 0 0 = 0 ∧ initLoopState.s2 0 0 0 = 0) ∧
    ((⟨[], 1, 0, (), ()⟩ : LoopState Unit).s1 =
        (⟨[], 0, 0, (), ()⟩ : LoopState Unit).s1 ∧
      (⟨[], 1, 0, (), ()⟩ : LoopState Unit).s2 =
        (⟨[], 0, 0, (), ()⟩ : LoopState Unit).s2) :=
  ⟨C9_recurrent_state.1 0 0 0,
    C9_recurrent_state.2.1 Unit 0 1
      (fun _ _ _ _ => ⟨[FVal.num 1], (), ()⟩) _ _ (by decide) (by decide)⟩

/-- C10: when the decoder-joint call returns fewer than `vocab_size`
logits, the iteration is the out-of-bounds slice panic
(`&outputs_flat[..self.vocab_size]`), modelled as the distinct
`none`/`.panicked` outcome rather than a typed `Err`; the split into
token and duration logits is total exactly when the vector has at least
`vocab_size` entries; and `transcribe` surfaces a panicking loop as
`.panicked`, not as an `Err`. -/
theorem C10_short_logits_panic :
    (∀ (σ : Type) (blank : Int) (vs : Nat)
      (dj : Nat → Int → σ → σ → DJOut σ) (s : LoopState σ),
      (djAt blank dj s).outputs.length < vs →
      decodeStep blank vs dj s = none) ∧
    (∀ (σ : Type) (blank : Int) (vs : Nat)
      (dj : Nat → Int → σ → σ → DJOut σ) (s : LoopState σ),
      vs ≤ (djAt blank dj s).outputs.length →
      (decodeStep blank vs dj s).isSome = true) ∧
    (∀ (σ : Type) (st : SttState σ) (audio : List ℚ)
      (pipeline : List ℚ → Except RStr EncMeta)
      (dj : Nat → Int → RecState → RecState → DJOut RecState)
      (meta : EncMeta),
      st.preprocessor_session.isSome = true →
      st.encoder_session.isSome = true →
      st.decoder_session.isSome = true → audio ≠ [] →
      pipeline audio = .ok meta →
      decodeLoop st.blank_idx st.vocab_size dj
        (min meta.encodedLen meta.numFrames) initLoopState = none →
      transcribe st audio pipeline dj = .panicked) := by
  refine ⟨?_, ?_, ?_⟩
  · intro σ blank vs dj s h
    unfold decodeStep
    rw [if_neg (not_le.mpr h)]
  · intro σ blank vs dj s h
    unfold decodeStep
    rw [if_pos h]
    split
    · rfl
    · split
      · rfl
      · rfl
  · intro σ st audio pipeline dj meta h1 h2 h3 h4 h5 h6
    obtain ⟨p, hp⟩ := Option.isSome_iff_exists.mp h1
    obtain ⟨q, hq⟩ := Option.isSome_iff_exists.mp h2
    obtain ⟨d, hd⟩ := Option.isSome_iff_exists.mp h3
    have hne : audio.isEmpty = false := by
      cases audio with
      | nil => exact absurd rfl h4
      | cons x xs => rfl
    unfold transcribe
    rw [hp, hq, hd, hne]
    simp only [Bool.false_eq_true, if_false, h5, h6]

/-- C10 witness: a stub returning an empty logit vector against
`vocab_size = 1` makes `transcribe` panic on the very first frame. -/
theorem C10_short_logits_panic_witness :
    transcribe
      (⟨[], false, some (), some (), some (), [], 1, 0,
        ModelStatus.Ready⟩ : SttState Unit)
      [1] (fun _ => .ok ⟨1, 1⟩)
      (fun _ _ _ _ => ⟨[], zeroRecState, zeroRecState⟩) =
      TranscribeResult.panicked :=
  C10_short_logits_panic.2.2 Unit _ [1] _ _ ⟨1, 1⟩ rfl rfl rfl
    (by decide) rfl
    (by rw [decodeLoop.eq_def]; simp [decodeStep, djAt, initLoopState])

/-- C4 counterexample: vocabulary load is *not* atomic on parse
failure. Starting from a table holding id 5, loading content whose
second line has an unparsable id returns the `Invalid vocab ID` error -
but the previous table is gone: the map was cleared before parsing and
holds exactly the successfully parsed first line. -/
theorem C4_counterexample :
    (load_vocab
      (⟨[], false, none, none, none, [(5, rs "hi")], 1, 0,
        ModelStatus.Ready⟩ : SttState Unit)
      (.ok (rs "a 1\nb x"))).2 = some (rs "Invalid vocab ID: x") ∧
    (load_vocab
      (⟨[], false, none, none, none, [(5, rs "hi")], 1, 0,
        ModelStatus.Ready⟩ : SttState Unit)
      (.ok (rs "a 1\nb x"))).1.vocab.lookup 5 = none ∧
    (⟨[], false, none, none, none, [(5, rs "hi")], 1, 0,
      ModelStatus.Ready⟩ : SttState Unit).vocab.lookup 5 =
        some (rs "hi") := by
  refine ⟨by decide, by decide, by decide⟩

/-- C4 (amended): on success the table is replaced wholesale, and the
error of a failing line is returned to the caller - but on a parse
failure the previous table is *not* left untouched: the map is cleared
before the parse loop, so the state afterwards holds exactly the
entries of the lines before the failing one, independently of the
previous table (only a file-read failure leaves the table unchanged). -/
theorem C4_load_vocab_not_atomic :
    (∀ (σ : Type) (st : SttState σ) (e : RStr),
      load_vocab st (.error e) =
        (st, some (rs "Failed to read vocab: " ++ e))) ∧
    (∀ (σ1 σ2 : Type) (st1 : SttState σ1) (st2 : SttState σ2) (c : RStr),
      (load_vocab st1 (.ok c)).1.vocab = (load_vocab st2 (.ok c)).1.vocab ∧
      (load_vocab st1 (.ok c)).2 = (load_vocab st2 (.ok c)).2) ∧
    (∀ (σ : Type) (st : SttState σ) (c : RStr)
      (v : List (Int × RStr)) (b : Int) (err : RStr),
      loadVocabLines (rustLines c) [] st.blank_idx = ((v, b), some err) →
      (load_vocab st (.ok c)).2 = some err ∧
        (load_vocab st (.ok c)).1.vocab = v) ∧
    (∀ (σ : Type) (st : SttState σ) (c : RStr)
      (v : List (Int × RStr)) (b : Int),
      loadVocabLines (rustLines c) [] st.blank_idx = ((v, b), none) →
      load_vocab st (.ok c) =
        ({ st with vocab := v, blank_idx := b, vocab_size := v.length },
          none)) := by
  refine ⟨fun σ st e => rfl, fun σ1 σ2 st1 st2 c =>
    load_vocab_discards_old st1 st2 c, ?_, ?_⟩
  · intro σ st c v b err h
    rw [load_vocab_ok_eq, h]
    exact ⟨rfl, rfl⟩
  · intro σ st c v b h
    rw [load_vocab_ok_eq, h]

/-- C4 witness: the failing-line case of the amended theorem at a
concrete input, and the read-failure case on a concrete state. -/
theorem C4_load_vocab_not_atomic_witness :
    ((load_vocab
        (⟨[], false, none, none, none, [], 0, 0,
          ModelStatus.NotDownloaded⟩ : SttState Unit)
        (.ok (rs "a 1\nb x"))).2 = some (rs "Invalid vocab ID: x") ∧
      (load_vocab
        (⟨[], false, none, none, none, [], 0, 0,
          ModelStatus.NotDownloaded⟩ : SttState Unit)
        (.ok (rs "a 1\nb x"))).1.vocab = [(1, rs "a")]) ∧
    load_vocab
      (⟨[], false, none, none, none, [], 0, 0,
        ModelStatus.NotDownloaded⟩ : SttState Unit)
      (.error (rs "io")) =
      ((⟨[], false, none, none, none, [], 0, 0,
        ModelStatus.NotDownloaded⟩ : SttState Unit),
        some (rs "Failed to read vocab: " ++ rs "io")) :=
  ⟨C4_load_vocab_not_atomic.2.2.1 Unit _ (rs "a 1\nb x")
      [(1, rs "a")] 0 (rs "Invalid vocab ID: x") (by decide),
    C4_load_vocab_not_atomic.1 Unit _ (rs "io")⟩

/-- C7 counterexample: the source splits each trimmed line on *single*
space characters (`split(' ')`), not on runs of whitespace. A line with
two spaces between token and id produces an empty middle field whose
parse fails the whole load with `Invalid vocab ID: `, and a
tab-separated line yields one field and is silently skipped - in both
cases the claim's "loads successfully" is false. -/
theorem C7_counterexample :
    (load_vocab
      (⟨[], false, none, none, none, [], 0, 0,
        ModelStatus.NotDownloaded⟩ : SttState Unit)
      (.ok (rs "hi  5"))).2 = some (rs "Invalid vocab ID: ") ∧
    (load_vocab
      (⟨[], false, none, none, none, [], 0, 0,
        ModelStatus.NotDownloaded⟩ : SttState Unit)
      (.ok (rs "hi\t5"))).2 = none ∧
    (load_vocab
      (⟨[], false, none, none, none, [], 0, 0,
        ModelStatus.NotDownloaded⟩ : SttState Unit)
      (.ok (rs "hi\t5"))).1.vocab = [] := by
  refine ⟨by decide, by decide, by decide⟩

/-- C7 (amended): each line is trimmed and split on single space
characters; a line with fewer than two space-separated fields is
skipped without error; with at least two fields, a second field that
fails the integer parse aborts the load with the `Invalid vocab ID`
error (so a run of several spaces, whose middle field is empty, fails
rather than loading), and a parsable second field inserts the
marker-replaced first field under the parsed id. -/
theorem C7_line_split_semantics :
    (∀ (line : RStr) (rest : List RStr) (v : List (Int × RStr)) (b : Int),
      (splitOnChar ' ' (rustTrim line)).length < 2 →
      loadVocabLines (line :: rest) v b = loadVocabLines rest v b) ∧
    (∀ (line : RStr) (rest : List RStr) (v : List (Int × RStr)) (b : Int),
      2 ≤ (splitOnChar ' ' (rustTrim line)).length →
      parseI64 ((splitOnChar ' ' (rustTrim line)).getD 1 []) = none →
      loadVocabLines (line :: rest) v b =
        ((v, b), some (rs "Invalid vocab ID: " ++
          (splitOnChar ' ' (rustTrim line)).getD 1 []))) ∧
    (∀ (line : RStr) (rest : List RStr) (v : List (Int × RStr)) (b : Int)
      (id : Int),
      2 ≤ (splitOnChar ' ' (rustTrim line)).length →
      parseI64 ((splitOnChar ' ' (rustTrim line)).getD 1 []) = some id →
      loadVocabLines (line :: rest) v b =
        loadVocabLines rest
          (hmInsert v id
            (replaceMarker ((splitOnChar ' ' (rustTrim line)).getD 0 [])))
          (if (splitOnChar ' ' (rustTrim line)).getD 0 [] = rs "<blk>"
            then id else b)) := by
  refine ⟨?_, ?_, ?_⟩
  · intro line rest v b h
    conv_lhs => rw [loadVocabLines]
    rw [if_neg (by omega)]
  · intro line rest v b h hp
    conv_lhs => rw [loadVocabLines]
    rw [if_pos h, hp]
  · intro line rest v b id h hp
    conv_lhs => rw [loadVocabLines]
    rw [if_pos h, hp]

/-- C7 witness: the three cases of the amended theorem at concrete
lines - a tabbed line is skipped, a double-spaced line fails the load,
a single-spaced line inserts its entry. -/
theorem C7_line_split_semantics_witness :
    loadVocabLines [rs "a\t1"] [] 7 = loadVocabLines [] [] 7 ∧
    loadVocabLines [rs "a  1"] [] 7 =
      (([], 7), some (rs "Invalid vocab ID: " ++
        (splitOnChar ' ' (rustTrim (rs "a  1"))).getD 1 [])) ∧
    loadVocabLines [rs "a 1"] [] 7 =
      loadVocabLines []
        (hmInsert [] 1
          (replaceMarker ((splitOnChar ' ' (rustTrim (rs "a 1"))).getD 0 [])))
        (if (splitOnChar ' ' (rustTrim (rs "a 1"))).getD 0 [] = rs "<blk>"
          then 1 else 7) :=
  ⟨C7_line_split_semantics.1 (rs "a\t1") [] [] 7 (by decide),
    C7_line_split_semantics.2.1 (rs "a  1") [] [] 7 (by decide) (by decide),
    C7_line_split_semantics.2.2 (rs "a 1") [] [] 7 1 (by decide) (by decide)⟩

/-- C6: loading the lines `hi 5` and `▁world 6` maps id 5 to `hi` and
id 6 to ` world` (the `U+2581` marker becomes a literal space);
detokenization concatenates matched fragments in order, silently skips
unmatched ids (dropping them changes nothing), and the result is
whitespace-normalized, so both `[5,6]` and `[5,999,6]` render as
`hi world`. -/
theorem C6_vocab_roundtrip :
    ((load_vocab
        (⟨[], false, none, none, none, [], 0, 0,
          ModelStatus.NotDownloaded⟩ : SttState Unit)
        (.ok (rs "hi 5\n▁world 6"))).2 = none ∧
      (load_vocab
        (⟨[], false, none, none, none, [], 0, 0,
          ModelStatus.NotDownloaded⟩ : SttState Unit)
        (.ok (rs "hi 5\n▁world 6"))).1.vocab.lookup 5 =
          some (rs "hi") ∧
      (load_vocab
        (⟨[], false, none, none, none, [], 0, 0,
          ModelStatus.NotDownloaded⟩ : SttState Unit)
        (.ok (rs "hi 5\n▁world 6"))).1.vocab.lookup 6 =
          some (rs " world")) ∧
    (normalizeWs (detokenize
        (load_vocab
          (⟨[], false, none, none, none, [], 0, 0,
            ModelStatus.NotDownloaded⟩ : SttState Unit)
          (.ok (rs "hi 5\n▁world 6"))).1.vocab [5, 6]) =
        rs "hi world" ∧
      normalizeWs (detokenize
        (load_vocab
          (⟨[], false, none, none, none, [], 0, 0,
            ModelStatus.NotDownloaded⟩ : SttState Unit)
          (.ok (rs "hi 5\n▁world 6"))).1.vocab [5, 999, 6]) =
        rs "hi world") ∧
    (∀ (v : List (Int × RStr)) (ids : List Int),
      detokenize v ids =
        detokenize v (ids.filter fun i => (v.lookup i).isSome)) := by
  refine ⟨⟨by decide, by decide, by decide⟩, ⟨by decide, by decide⟩, ?_⟩
  intro v ids
  rw [detokenize_eq_join, detokenize_eq_join, filterMap_filter_isSome]

/-- C8: transcribing an empty sample sequence on a loaded engine is the
designed success fast path - the result is `Ok("")` for *every*
preprocessor/encoder/decoder oracle, i.e. no neural component is
consulted - and `stop()` immediately after `start()` with no pushes
hands back an empty sample sequence. -/
theorem C8_empty_audio_fast_path :
    (∀ (σ : Type) (st : SttState σ)
      (pipeline : List ℚ → Except RStr EncMeta)
      (dj : Nat → Int → RecState → RecState → DJOut RecState),
      st.preprocessor_session.isSome = true →
      st.encoder_session.isSome = true →
      st.decoder_session.isSome = true →
      transcribe st [] pipeline dj = .ok []) ∧
    (∀ (σ : Type) (st : SttState σ),
      st.model_status = ModelStatus.Ready →
      ∃ st' : SttState σ, start_recording st = .ok st' ∧
        (stop_recording st').1 = []) := by
  constructor
  · intro σ st pipeline dj h1 h2 h3
    obtain ⟨p, hp⟩ := Option.isSome_iff_exists.mp h1
    obtain ⟨q, hq⟩ := Option.isSome_iff_exists.mp h2
    obtain ⟨d, hd⟩ := Option.isSome_iff_exists.mp h3
    unfold transcribe
    rw [hp, hq, hd]
    rfl
  · intro σ st h
    refine ⟨{ st with audio_buffer := [], is_recording := true }, ?_, rfl⟩
    unfold start_recording
    rw [if_pos h]

/-- C8 witness: a ready concrete engine with an always-failing pipeline
oracle still transcribes empty audio to the empty string, and
`start` then `stop` on it yields no samples. -/
theorem C8_empty_audio_fast_path_witness :
    transcribe
      (⟨[3], true, some (), some (), some (), [], 1, 0,
        ModelStatus.Ready⟩ : SttState Unit)
      [] (fun _ => .error (rs "must not run"))
      (fun _ _ _ _ => ⟨[], zeroRecState, zeroRecState⟩) = .ok [] ∧
    ∃ st' : SttState Unit,
      start_recording
        (⟨[3], true, some (), some (), some (), [], 1, 0,
          ModelStatus.Ready⟩ : SttState Unit) = .ok st' ∧
      (stop_recording st').1 = [] :=
  ⟨C8_empty_audio_fast_path.1 Unit _ _ _ rfl rfl rfl,
    C8_empty_audio_fast_path.2 Unit _ rfl⟩

/-- `load_vocab` touches only `vocab`, `blank_idx` and `vocab_size`:
sessions and `model_status` pass through unchanged. -/
theorem load_vocab_preserves_rest {σ : Type} (st : SttState σ)
    (content : Except RStr RStr) :
    (load_vocab st content).1.preprocessor_session =
        st.preprocessor_session ∧
    (load_vocab st content).1.encoder_session = st.encoder_session ∧
    (load_vocab st content).1.decoder_session = st.decoder_session ∧
    (load_vocab st content).1.model_status = st.model_status := by
  cases content with
  | error e => exact ⟨rfl, rfl, rfl, rfl⟩
  | ok c =>
    rw [load_vocab_ok_eq]
    rcases h : loadVocabLines (rustLines c) [] st.blank_idx with ⟨⟨v, b⟩, e⟩
    cases e <;> exact ⟨rfl, rfl, rfl, rfl⟩

/-- C5 counterexample: a failing sub-step does *not* set `ModelStatus`
to `Error` inside `load_models` - with a bad vocabulary file the error
is returned but the status stays `NotDownloaded` (the `Error` status is
written by the caller in `SttState::new`, and not at all on the
download path); and a vocabulary loaded before a later failing session
build stays loaded, so not every component is left uninitialized. -/
theorem C5_counterexample :
    (load_models
      (⟨[], false, none, none, none, [], 0, 0,
        ModelStatus.NotDownloaded⟩ : SttState Unit)
      true (.ok (rs "a x")) (.ok ()) (.ok ()) (.ok ()) (.ok ())).2 =
        some (rs "Invalid vocab ID: x") ∧
    ((load_models
      (⟨[], false, none, none, none, [], 0, 0,
        ModelStatus.NotDownloaded⟩ : SttState Unit)
      true (.ok (rs "a x")) (.ok ()) (.ok ())
      (.ok ()) (.ok ())).1).model_status = ModelStatus.NotDownloaded ∧
    ¬(∃ m : RStr,
      ((load_models
        (⟨[], false, none, none, none, [], 0, 0,
          ModelStatus.NotDownloaded⟩ : SttState Unit)
        true (.ok (rs "a x")) (.ok ()) (.ok ())
        (.ok ()) (.ok ())).1).model_status = ModelStatus.Error m) ∧
    (load_models
      (⟨[], false, none, none, none, [], 0, 0,
        ModelStatus.NotDownloaded⟩ : SttState Unit)
      true (.ok (rs "a 1")) (.ok ()) (.ok ()) (.ok ())
      (.error (rs "decoder build failed"))).2 =
        some (rs "decoder build failed") ∧
    ((load_models
      (⟨[], false, none, none, none, [], 0, 0,
        ModelStatus.NotDownloaded⟩ : SttState Unit)
      true (.ok (rs "a 1")) (.ok ()) (.ok ()) (.ok ())
      (.error (rs "decoder build failed"))).1).vocab.lookup 1 =
        some (rs "a") := by
  refine ⟨by decide, by decide, ?_, by decide, by decide⟩
  rintro ⟨m, hm⟩
  have h2 : ((load_models
      (⟨[], false, none, none, none, [], 0, 0,
        ModelStatus.NotDownloaded⟩ : SttState Unit)
      true (.ok (rs "a x")) (.ok ()) (.ok ())
      (.ok ()) (.ok ())).1).model_status = ModelStatus.NotDownloaded := by
    decide
  rw [h2] at hm
  exact ModelStatus.noConfusion hm

/-- C5 (amended): any failing sub-step aborts `load_models` and returns
the error; the three sessions keep their previous values (they are
assigned only after every step succeeded) and `model_status` is left
*unchanged* by `load_models` on failure - it is the constructor
`SttState::new` that maps a failure to `Error{message}` - while a
vocabulary loaded before a later failing sub-step remains in place. On
full success all three sessions are set and `ModelStatus` becomes
`Ready`. -/
theorem C5_load_models_semantics :
    ∀ (σ : Type) (st : SttState σ) (files : Bool)
      (vc : Except RStr RStr) (oi : Except RStr Unit)
      (ps es ds : Except RStr σ),
      ((load_models st files vc oi ps es ds).2 ≠ none →
        ((load_models st files vc oi ps es ds).1).preprocessor_session =
            st.preprocessor_session ∧
        ((load_models st files vc oi ps es ds).1).encoder_session =
            st.encoder_session ∧
        ((load_models st files vc oi ps es ds).1).decoder_session =
            st.decoder_session ∧
        ((load_models st files vc oi ps es ds).1).model_status =
            st.model_status) ∧
      ((load_models st files vc oi ps es ds).2 = none →
        ((load_models st files vc oi ps es ds).1).model_status =
            ModelStatus.Ready ∧
        (((load_models st files vc oi ps es ds).1).preprocessor_session).isSome = true ∧
        (((load_models st files vc oi ps es ds).1).encoder_session).isSome = true ∧
        (((load_models st files vc oi ps es ds).1).decoder_session).isSome = true) := by
  intro σ st files vc oi ps es ds
  obtain ⟨hv1, hv2, hv3, hv4⟩ := load_vocab_preserves_rest st vc
  unfold load_models
  cases files with
  | false =>
    rw [if_pos (by decide)]
    exact ⟨fun _ => ⟨rfl, rfl, rfl, rfl⟩, fun h => Option.noConfusion h⟩
  | true =>
    rw [if_neg (by decide)]
    rcases hlv : load_vocab st vc with ⟨st1, e1⟩
    rw [hlv] at hv1 hv2 hv3 hv4
    cases e1 with
    | some e =>
      exact ⟨fun _ => ⟨hv1, hv2, hv3, hv4⟩, fun h => Option.noConfusion h⟩
    | none =>
      cases oi with
      | error e =>
        exact ⟨fun _ => ⟨hv1, hv2, hv3, hv4⟩, fun h => Option.noConfusion h⟩
      | ok u =>
        cases ps with
        | error e =>
          exact ⟨fun _ => ⟨hv1, hv2, hv3, hv4⟩,
            fun h => Option.noConfusion h⟩
        | ok p =>
          cases es with
          | error e =>
            exact ⟨fun _ => ⟨hv1, hv2, hv3, hv4⟩,
              fun h => Option.noConfusion h⟩
          | ok en =>
            cases ds with
            | error e =>
              exact ⟨fun _ => ⟨hv1, hv2, hv3, hv4⟩,
                fun h => Option.noConfusion h⟩
            | ok d =>
              exact ⟨fun h => absurd rfl h, fun _ => ⟨rfl, rfl, rfl, rfl⟩⟩

/-- C5 witness: the amended theorem applied to a concrete failing
decoder build (status preserved) and to a concrete fully successful
load (status `Ready`). -/
theorem C5_load_models_semantics_witness :
    ((load_models
        (⟨[], false, none, none, none, [], 0, 0,
          ModelStatus.NotDownloaded⟩ : SttState Unit)
        true (.ok (rs "a 1")) (.ok ()) (.ok ()) (.ok ())
        (.error (rs "boom"))).1).model_status =
      (⟨[], false, none, none, none, [], 0, 0,
        ModelStatus.NotDownloaded⟩ : SttState Unit).model_status ∧
    ((load_models
        (⟨[], false, none, none, none, [], 0, 0,
          ModelStatus.NotDownloaded⟩ : SttState Unit)
        true (.ok (rs "a 1")) (.ok ()) (.ok ()) (.ok ())
        (.ok ())).1).model_status = ModelStatus.Ready :=
  ⟨((C5_load_models_semantics Unit _ true (.ok (rs "a 1")) (.ok ())
      (.ok ()) (.ok ()) (.error (rs "boom"))).1 (by decide)).2.2.2,
    ((C5_load_models_semantics Unit _ true (.ok (rs "a 1")) (.ok ())
      (.ok ()) (.ok ()) (.ok ())).2 (by decide)).1⟩
